import Mathlib

/-!
Shallow embedding of `src/include/densecrf_mex.cpp` from the
meanfield-matlab repository: a MEX wrapper that reads a grid shape, an
image, a unary-cost table and a configuration, and dispatches the
labeling problem either to a dense mean-field backend (solver "MF") or
to a sequential tree-reweighted message-passing backend (solver "TRWS"),
building an explicit thresholded edge list for the latter.

Costs (C++ `float`/`double`) are modelled as rationals.  The two
backend solvers are external collaborators of the wrapper (their code is
not part of the repository's core, per the spec §1 and §6); they are
modelled as parameters satisfying the spec's §6 contract: total
functions from their configured inputs to a labeling plus scalar
energy/bound.  Fatal `mexErrMsgTxt`/`assert`/division-by-zero exits are
modelled as `Except.error`.
-/

namespace Meanfield

/-- The fatal exits of `mexFunction`: the argument-count check
(line 20-21), the division `UC/(M*N)` with `M*N == 0` (line 50, undefined
behaviour in C++, modelled as a fatal abort), the `assert(M > 0)` /
`assert(N > 0)` pair (lines 58-59), and the unknown-solver check
(lines 62-64). -/
inductive MexError where
  | wrongArgCount
  | divideByZero
  | assertFailed
  | unknownSolver
  deriving DecidableEq, Repr

/-- Modelled from the spec: `Linear2sub` (constructed at
densecrf_mex.cpp line 70, defined in `meanfield.h`, which is not under
`src/`).  GridIndex.toCoord maps a linear variable index to its
(row, col) grid coordinate, MATLAB column-major. -/
def toCoord (M i : ℕ) : ℕ × ℕ := (i % M, i / M)

/-- Modelled from the spec: GridIndex.toLinear, the inverse mapping from
a (row, col) grid coordinate back to the linear index (spec §4.1; the
implementation lives in `meanfield.h`, not under `src/`). -/
def toLinear (M : ℕ) (rc : ℕ × ℕ) : ℕ := rc.1 + M * rc.2

/-- The unordered index pairs enumerated by the nested loops of the
TRWS branch (densecrf_mex.cpp lines 165-166): `i` over `[0, n)` and `j`
over `[i+1, n)`.  The inner enumeration starts at `i + 1`, so a pair
with `j ≤ i` is never formed. -/
def allPairs (n : ℕ) : List (ℕ × ℕ) :=
  (List.range n).flatMap fun i =>
    (List.range' (i + 1) (n - (i + 1))).map fun j => (i, j)

/-- The edge list built for the TRWS backend (densecrf_mex.cpp
lines 165-175): each enumerated pair is kept iff its pairwise cost is at
least `thr` (`pcost >= min_pairwise_cost`, line 172), and the kept edge
carries that single scalar cost (line 173). -/
def sparseEdges (n : ℕ) (cost : ℕ → ℕ → ℚ) (thr : ℚ) : List (ℕ × ℕ × ℚ) :=
  ((allPairs n).filter fun p => thr ≤ cost p.1 p.2).map
    fun p => (p.1, p.2, cost p.1 p.2)

/-- Modelled from the spec: the per-variable minimum unary cost over the
label set (the inner reduction of `lowestUnaryCost`, declared in
`meanfield.h`, not under `src/`). -/
def minUnary (u : ℕ → ℕ → ℚ) (L i : ℕ) : ℚ :=
  if h : 0 < L then
    (Finset.range L).inf' (Finset.nonempty_range_iff.mpr (Nat.pos_iff_ne_zero.mp h)) (u i)
  else 0

/-- Modelled from the spec: `lowestUnaryCost` (called at
densecrf_mex.cpp line 130, defined in `meanfield.h`, not under `src/`):
the trivial lower bound, the sum over all variables of the minimum unary
cost over labels (spec §4.4). -/
def lowestUnaryCost (u : ℕ → ℕ → ℚ) (n L : ℕ) : ℚ :=
  ∑ i ∈ Finset.range n, minUnary u L i

/-- Modelled from the spec: `EnergyFunctor` (constructed at
densecrf_mex.cpp line 90, defined in `meanfield.h`, not under `src/`):
the energy of a labeling is the sum of the unary costs of the assigned
labels plus the pairwise cost of every unordered pair of variables whose
labels disagree (spec §4.4, Potts compatibility).  Like the C++ functor
it is parametric in the unary and pairwise cost oracles. -/
def energyFunctor (u pc : ℕ → ℕ → ℚ) (n : ℕ) (lab : ℕ → ℕ) : ℚ :=
  (∑ i ∈ Finset.range n, u i (lab i)) +
    ∑ i ∈ Finset.range n, ∑ j ∈ Finset.range n,
      if i < j ∧ lab i ≠ lab j then pc i j else 0

/-- Modelled from the spec: the contract of the dense mean-field backend
(spec §6, an external collaborator): given the unary cost oracle and an
iteration budget it returns a per-variable label, and it exposes an
energy-evaluation method (`crf.map` and `crf.energy` at densecrf_mex.cpp
lines 122 and 129).  The kernel parameters and image configured at
lines 96-119 are captured inside the backend value. -/
structure MFBackend where
  solve : (ℕ → ℕ → ℚ) → ℤ → (ℕ → ℕ)
  energy : (ℕ → ℕ → ℚ) → (ℕ → ℕ) → ℚ

/-- Modelled from the spec: the contract of the TRW-S backend (spec §6,
an external collaborator): given per-node label costs, a Potts edge
list and an iteration budget it returns a per-node label, the achieved
energy and the dual lower bound (densecrf_mex.cpp lines 147-183). -/
structure TRWSBackend where
  solve : (ℕ → ℕ → ℚ) → List (ℕ × ℕ × ℚ) → ℤ → ((ℕ → ℤ) × ℚ × ℚ)

/-- The inputs of one `mexFunction` call: argument count, grid shape
`(M, N, C)` from `im_size` (lines 43-45), the unary element count
`UC = unary_matrix.numel()` (line 49), the unary and pairwise cost
oracles (`UnaryCost`/`PairwiseCost`, lines 71 and 89, both taking grid
coordinates), and the parsed options: `solver` (line 40, `none` when the
option is absent, in which case the C++ default string "Not set" is
used), `iterations` (line 34) and `min_pairwise_cost` (line 37). -/
structure MexInputs where
  nrhs : ℕ
  M : ℤ
  N : ℤ
  C : ℤ
  UC : ℕ
  unaryCost : ℕ × ℕ → ℕ → ℚ
  pairwiseCost : ℕ × ℕ → ℕ × ℕ → ℚ
  solver : Option String
  iterations : ℤ
  min_pairwise_cost : ℚ

/-- The three outputs assigned by the wrapper on every successful solve:
the `M×N` labeling matrix `result` (as its list of entries), the scalar
`energy` and the scalar `bound` (densecrf_mex.cpp lines 81-87). -/
structure MexOutput where
  result : List ℚ
  energy : ℚ
  bound : ℚ
  deriving DecidableEq, Repr

/-- The MF branch (densecrf_mex.cpp lines 93-136): run the dense
backend for `iterations` rounds, pack the returned label of each of the
`M*N` variables into `result` (lines 125-127), report the backend's
energy of that labeling (line 129) and the trivial unary lower bound
(line 130). -/
def mfRun (mfB : MFBackend) (inp : MexInputs) : MexOutput :=
  let nv : ℕ := (inp.M * inp.N).toNat
  let L : ℕ := ((inp.UC : ℤ) / (inp.M * inp.N)).toNat
  let unaryLin : ℕ → ℕ → ℚ := fun i s => inp.unaryCost (toCoord inp.M.toNat i) s
  let lab : ℕ → ℕ := mfB.solve unaryLin inp.iterations
  { result := (List.range nv).map fun i => ((lab i : ℕ) : ℚ),
    energy := mfB.energy unaryLin lab,
    bound := lowestUnaryCost unaryLin nv L }

/-- The TRWS branch (densecrf_mex.cpp lines 138-192): per-node unary
costs `D[s] = unaryCost(linear2sub(i), s)` (lines 152-162), the
thresholded edge list over all pairs `i < j` (lines 165-175, `sparseEdges`
with the pairwise cost read at the two grid coordinates), then the
backend solve; `result` packs `GetSolution` per node (lines 179-180) and
the backend's energy and lower bound are reported verbatim
(lines 182-183). -/
def trwsRun (trwsB : TRWSBackend) (inp : MexInputs) : MexOutput :=
  let nv : ℕ := (inp.M * inp.N).toNat
  let unaryLin : ℕ → ℕ → ℚ := fun i s => inp.unaryCost (toCoord inp.M.toNat i) s
  let costLin : ℕ → ℕ → ℚ := fun i j =>
    inp.pairwiseCost (toCoord inp.M.toNat i) (toCoord inp.M.toNat j)
  let res := trwsB.solve unaryLin (sparseEdges nv costLin inp.min_pairwise_cost) inp.iterations
  { result := (List.range nv).map fun i => ((res.1 i : ℤ) : ℚ),
    energy := res.2.1,
    bound := res.2.2 }

/-- The wrapper `mexFunction` (densecrf_mex.cpp lines 12-193), in source
order: the argument-count check (lines 20-21); the computation
`numberOfLabels = UC/(M*N)` (line 50), whose division is a fatal abort
when `M*N = 0` (C++ undefined behaviour, before the asserts); the
`assert(M > 0)` and `assert(N > 0)` (lines 58-59); the solver-name check
(lines 62-64, case-sensitive string comparison against exactly "MF" and
"TRWS", default "Not set" when the option is absent); then exactly one
of the two solver branches.  `nlhs` is received (line 12) but never
read, exactly as in the source. -/
def mexFunction (mfB : MFBackend) (trwsB : TRWSBackend) (nlhs : ℕ) (inp : MexInputs) :
    Except MexError MexOutput :=
  if inp.nrhs ≠ 4 then .error .wrongArgCount
  else if inp.M * inp.N = 0 then .error .divideByZero
  else if inp.M ≤ 0 then .error .assertFailed
  else if inp.N ≤ 0 then .error .assertFailed
  else if inp.solver.getD "Not set" ≠ "MF" ∧ inp.solver.getD "Not set" ≠ "TRWS" then
    .error .unknownSolver
  else if inp.solver.getD "Not set" = "MF" then .ok (mfRun mfB inp)
  else .ok (trwsRun trwsB inp)

/-- Whether a call returned a result (did not abort fatally). -/
def exceptIsOk : Except MexError MexOutput → Bool
  | .ok _ => true
  | .error _ => false

/-- A trivial instantiation of the mean-field backend contract, used to
evaluate the wrapper on concrete inputs. -/
def mfTriv : MFBackend :=
  { solve := fun _ _ _ => 0, energy := fun _ _ => 0 }

/-- A trivial instantiation of the TRW-S backend contract, used to
evaluate the wrapper on concrete inputs. -/
def trwsTriv : TRWSBackend :=
  { solve := fun _ _ _ => (fun _ => 0, 0, 0) }

/-- A concrete well-formed input: a 2×2 grid, 3 channels, 8 unary
entries (2 labels), solver "MF". -/
def inpMF : MexInputs :=
  { nrhs := 4, M := 2, N := 2, C := 3, UC := 8,
    unaryCost := fun _ _ => 1, pairwiseCost := fun _ _ => 1,
    solver := some "MF", iterations := 20, min_pairwise_cost := 0 }

/-- A concrete input whose unary element count (5) is not divisible by
`M*N = 2`. -/
def inpNondiv : MexInputs :=
  { nrhs := 4, M := 2, N := 1, C := 3, UC := 5,
    unaryCost := fun _ _ => 1, pairwiseCost := fun _ _ => 1,
    solver := some "MF", iterations := 20, min_pairwise_cost := 0 }

/-- Membership in the pair enumeration of the TRWS loops: exactly the
pairs `i < j < n`. -/
theorem mem_allPairs {n i j : ℕ} : (i, j) ∈ allPairs n ↔ i < j ∧ j < n := by
  unfold allPairs
  rw [List.mem_flatMap]
  constructor
  · rintro ⟨a, ha, hmem⟩
    rw [List.mem_map] at hmem
    obtain ⟨b, hb, heq⟩ := hmem
    rw [List.mem_range] at ha
    rw [List.mem_range'_1] at hb
    injection heq with e1 e2
    subst e1
    subst e2
    omega
  · rintro ⟨hij, hjn⟩
    refine ⟨i, ?_, ?_⟩
    · rw [List.mem_range]; omega
    · rw [List.mem_map]
      refine ⟨j, ?_, rfl⟩
      rw [List.mem_range'_1]
      omega

/-- Evaluation of the wrapper when every check passes and the solver is
"MF": the MF branch runs. -/
theorem mexFunction_mf_eq (mfB : MFBackend) (trwsB : TRWSBackend) (nlhs : ℕ)
    (inp : MexInputs) (hnr : inp.nrhs = 4) (hM : 0 < inp.M) (hN : 0 < inp.N)
    (hs : inp.solver = some "MF") :
    mexFunction mfB trwsB nlhs inp = .ok (mfRun mfB inp) := by
  have hMN : ¬ (inp.M * inp.N = 0) := ne_of_gt (mul_pos hM hN)
  have hM0 : ¬ (inp.M ≤ 0) := by omega
  have hN0 : ¬ (inp.N ≤ 0) := by omega
  simp [mexFunction, hnr, hs, hMN, hM0, hN0]

/-- Evaluation of the wrapper when every check passes and the solver is
"TRWS": the TRWS branch runs. -/
theorem mexFunction_trws_eq (mfB : MFBackend) (trwsB : TRWSBackend) (nlhs : ℕ)
    (inp : MexInputs) (hnr : inp.nrhs = 4) (hM : 0 < inp.M) (hN : 0 < inp.N)
    (hs : inp.solver = some "TRWS") :
    mexFunction mfB trwsB nlhs inp = .ok (trwsRun trwsB inp) := by
  have hMN : ¬ (inp.M * inp.N = 0) := ne_of_gt (mul_pos hM hN)
  have hM0 : ¬ (inp.M ≤ 0) := by omega
  have hN0 : ¬ (inp.N ≤ 0) := by omega
  have hne : ¬ (("TRWS" : String) = "MF") := by decide
  simp [mexFunction, hnr, hs, hMN, hM0, hN0, hne]

/-- C1: the edge list built for the TRW-S backend contains exactly the
unordered variable pairs (i, j) with i < j < n whose pairwise cost is at
least the threshold, each edge carrying exactly that single scalar cost,
and it never contains a self-edge (i, i). -/
theorem sparseEdges_exact (n : ℕ) (cost : ℕ → ℕ → ℚ) (thr : ℚ) :
    (∀ i j c, (i, j, c) ∈ sparseEdges n cost thr ↔
      i < j ∧ j < n ∧ thr ≤ cost i j ∧ c = cost i j) ∧
    ∀ i c, (i, i, c) ∉ sparseEdges n cost thr := by
  have hmem : ∀ i j c, (i, j, c) ∈ sparseEdges n cost thr ↔
      i < j ∧ j < n ∧ thr ≤ cost i j ∧ c = cost i j := by
    intro i j c
    unfold sparseEdges
    rw [List.mem_map]
    constructor
    · rintro ⟨⟨a, b⟩, hab, heq⟩
      rw [List.mem_filter] at hab
      obtain ⟨hpair, hcost⟩ := hab
      rw [mem_allPairs] at hpair
      rw [decide_eq_true_eq] at hcost
      injection heq with e1 e2
      injection e2 with e2 e3
      subst e1
      subst e2
      subst e3
      exact ⟨hpair.1, hpair.2, hcost, rfl⟩
    · rintro ⟨hij, hjn, hle, rfl⟩
      refine ⟨(i, j), ?_, rfl⟩
      rw [List.mem_filter]
      exact ⟨mem_allPairs.mpr ⟨hij, hjn⟩, decide_eq_true_eq.mpr hle⟩
  refine ⟨hmem, fun i c hin => ?_⟩
  exact Nat.lt_irrefl i ((hmem i i c).mp hin).1

/-- Witness for C1: on a 2-variable problem with constant cost 1 and
threshold 0, the edge (0, 1) is present with its cost, and the
self-pair (0, 0) is absent. -/
theorem sparseEdges_exact_witness :
    (0, 1, (1 : ℚ)) ∈ sparseEdges 2 (fun _ _ => (1 : ℚ)) 0 ∧
    (0, 0, (1 : ℚ)) ∉ sparseEdges 2 (fun _ _ => (1 : ℚ)) 0 :=
  ⟨((sparseEdges_exact 2 (fun _ _ => (1 : ℚ)) 0).1 0 1 1).mpr
      ⟨by norm_num, by norm_num, by norm_num, rfl⟩,
    (sparseEdges_exact 2 (fun _ _ => (1 : ℚ)) 0).2 0 1⟩

/-- C4: for a fixed cost function, raising the threshold can only
remove edges: with t₁ ≤ t₂ the edge list at t₂ is a sublist (hence a
subset, hence no longer) of the edge list at t₁. -/
theorem sparseEdges_antitone (n : ℕ) (cost : ℕ → ℕ → ℚ) (t₁ t₂ : ℚ)
    (h : t₁ ≤ t₂) :
    (sparseEdges n cost t₂).Sublist (sparseEdges n cost t₁) ∧
    (∀ e, e ∈ sparseEdges n cost t₂ → e ∈ sparseEdges n cost t₁) ∧
    (sparseEdges n cost t₂).length ≤ (sparseEdges n cost t₁).length := by
  have hsub : (sparseEdges n cost t₂).Sublist (sparseEdges n cost t₁) := by
    unfold sparseEdges
    refine List.Sublist.map _ ?_
    refine List.monotone_filter_right _ fun p hp => ?_
    rw [decide_eq_true_eq] at hp ⊢
    exact le_trans h hp
  exact ⟨hsub, fun e he => hsub.subset he, hsub.length_le⟩

/-- Witness for C4: on a 3-variable problem with cost i + j, the edges
kept at threshold 1 are among those kept at threshold 0 and are no more
numerous. -/
theorem sparseEdges_antitone_witness :
    (sparseEdges 3 (fun i j => (i + j : ℚ)) 1).length ≤
      (sparseEdges 3 (fun i j => (i + j : ℚ)) 0).length :=
  (sparseEdges_antitone 3 (fun i j => (i + j : ℚ)) 0 1 (by norm_num)).2.2

/-- C2: for every valid labeling, the trivial lower bound (sum over all
variables of the minimum unary cost over labels) is at most the
EnergyFunctor energy of that labeling, provided each pairwise cost is
nonnegative (the kernel mixture of spec §4.3 is a nonnegative-weighted
sum of exponentials); and on a successful MF solve the reported bound
output is exactly that trivial bound evaluated on the call's unary
oracle, variable count `M*N` and label count `UC/(M*N)`. -/
theorem trivialBound_le_energy (u pc : ℕ → ℕ → ℚ) (n L : ℕ) (lab : ℕ → ℕ)
    (hL : 0 < L) (hlab : ∀ i, i < n → lab i < L) (hpc : ∀ i j, 0 ≤ pc i j)
    (mfB : MFBackend) (trwsB : TRWSBackend) (nlhs : ℕ) (inp : MexInputs)
    (hnr : inp.nrhs = 4) (hM : 0 < inp.M) (hN : 0 < inp.N)
    (hs : inp.solver = some "MF") :
    lowestUnaryCost u n L ≤ energyFunctor u pc n lab ∧
    ∀ out, mexFunction mfB trwsB nlhs inp = .ok out →
      out.bound = lowestUnaryCost (fun i s => inp.unaryCost (toCoord inp.M.toNat i) s)
        (inp.M * inp.N).toNat ((inp.UC : ℤ) / (inp.M * inp.N)).toNat := by
  constructor
  · have h1 : lowestUnaryCost u n L ≤ ∑ i ∈ Finset.range n, u i (lab i) := by
      unfold lowestUnaryCost
      refine Finset.sum_le_sum fun i hi => ?_
      unfold minUnary
      rw [dif_pos hL]
      exact Finset.inf'_le _ (Finset.mem_range.mpr (hlab i (Finset.mem_range.mp hi)))
    have h2 : (0 : ℚ) ≤ ∑ i ∈ Finset.range n, ∑ j ∈ Finset.range n,
        (if i < j ∧ lab i ≠ lab j then pc i j else 0) := by
      refine Finset.sum_nonneg fun i _ => Finset.sum_nonneg fun j _ => ?_
      by_cases hij : i < j ∧ lab i ≠ lab j
      · simpa [hij] using hpc i j
      · simp [hij]
    unfold energyFunctor
    linarith
  · intro out hout
    rw [mexFunction_mf_eq mfB trwsB nlhs inp hnr hM hN hs] at hout
    injection hout with h
    subst h
    rfl

/-- Witness for C2: on a 4-variable problem with 2 labels, unit unary
and pairwise costs, the trivial bound is below the energy of the
all-zeros labeling, and the MF branch of the concrete input reports the
trivial bound. -/
theorem trivialBound_le_energy_witness :
    lowestUnaryCost (fun _ _ => (1 : ℚ)) 4 2 ≤
      energyFunctor (fun _ _ => (1 : ℚ)) (fun _ _ => (1 : ℚ)) 4 (fun _ => 0) ∧
    (mfRun mfTriv inpMF).bound =
      lowestUnaryCost (fun i s => inpMF.unaryCost (toCoord inpMF.M.toNat i) s)
        (inpMF.M * inpMF.N).toNat ((inpMF.UC : ℤ) / (inpMF.M * inpMF.N)).toNat := by
  have h := trivialBound_le_energy (fun _ _ => (1 : ℚ)) (fun _ _ => (1 : ℚ)) 4 2
    (fun _ => 0) (by norm_num) (fun i _ => by norm_num) (fun i j => by norm_num)
    mfTriv trwsTriv 0 inpMF rfl (by norm_num [inpMF]) (by norm_num [inpMF]) rfl
  exact ⟨h.1, h.2 (mfRun mfTriv inpMF)
    (mexFunction_mf_eq mfTriv trwsTriv 0 inpMF rfl (by norm_num [inpMF])
      (by norm_num [inpMF]) rfl)⟩

/-- C3: provided the earlier checks pass (argument count 4, positive
grid dimensions), the call fails with the unknown-solver configuration
error exactly when the solver string (the default "Not set" when the
option is absent) differs, as a case-sensitive string, from both "MF"
and "TRWS"; in that case no solve is attempted: the outcome does not
depend on either backend and no output is produced. -/
theorem unknown_solver_rejected (mfB mfB' : MFBackend) (trwsB trwsB' : TRWSBackend)
    (nlhs : ℕ) (inp : MexInputs)
    (hnr : inp.nrhs = 4) (hM : 0 < inp.M) (hN : 0 < inp.N) :
    (mexFunction mfB trwsB nlhs inp = .error .unknownSolver ↔
      inp.solver.getD "Not set" ≠ "MF" ∧ inp.solver.getD "Not set" ≠ "TRWS") ∧
    (inp.solver.getD "Not set" ≠ "MF" ∧ inp.solver.getD "Not set" ≠ "TRWS" →
      mexFunction mfB trwsB nlhs inp = mexFunction mfB' trwsB' nlhs inp) := by
  have hMN : ¬ (inp.M * inp.N = 0) := ne_of_gt (mul_pos hM hN)
  have hM0 : ¬ (inp.M ≤ 0) := by omega
  have hN0 : ¬ (inp.N ≤ 0) := by omega
  have key : ∀ (a : MFBackend) (b : TRWSBackend),
      mexFunction a b nlhs inp = .error .unknownSolver ↔
        inp.solver.getD "Not set" ≠ "MF" ∧ inp.solver.getD "Not set" ≠ "TRWS" := by
    intro a b
    by_cases hbad : inp.solver.getD "Not set" ≠ "MF" ∧ inp.solver.getD "Not set" ≠ "TRWS"
    · simp [mexFunction, hnr, hMN, hM0, hN0, hbad]
    · by_cases hmf : inp.solver.getD "Not set" = "MF"
      · simp [mexFunction, hnr, hMN, hM0, hN0, hbad, hmf]
      · simp only [mexFunction, hnr, hMN, hM0, hN0, hbad, hmf]
        simp
  refine ⟨key mfB trwsB, fun h => ?_⟩
  rw [(key mfB trwsB).mpr h, (key mfB' trwsB').mpr h]

/-- A concrete input whose solver option is absent: the C++ default
"Not set" is matched. -/
def inpNoSolver : MexInputs :=
  { nrhs := 4, M := 2, N := 2, C := 3, UC := 8,
    unaryCost := fun _ _ => 1, pairwiseCost := fun _ _ => 1,
    solver := none, iterations := 20, min_pairwise_cost := 0 }

/-- A concrete input whose solver option is the lower-case string "mf":
case-sensitive matching rejects it. -/
def inpLowercase : MexInputs :=
  { nrhs := 4, M := 2, N := 2, C := 3, UC := 8,
    unaryCost := fun _ _ => 1, pairwiseCost := fun _ _ => 1,
    solver := some "mf", iterations := 20, min_pairwise_cost := 0 }

/-- Witness for C3: an absent solver option and the lower-case "mf"
both abort with the unknown-solver error. -/
theorem unknown_solver_rejected_witness :
    mexFunction mfTriv trwsTriv 0 inpNoSolver = .error .unknownSolver ∧
    mexFunction mfTriv trwsTriv 0 inpLowercase = .error .unknownSolver :=
  ⟨((unknown_solver_rejected mfTriv mfTriv trwsTriv trwsTriv 0 inpNoSolver rfl
      (by norm_num [inpNoSolver]) (by norm_num [inpNoSolver])).1).mpr (by decide),
   ((unknown_solver_rejected mfTriv mfTriv trwsTriv trwsTriv 0 inpLowercase rfl
      (by norm_num [inpLowercase]) (by norm_num [inpLowercase])).1).mpr (by decide)⟩

/-- C5 counterexample: with `UC = 5` unary entries on a 2-variable grid
(`M*N = 2`, which does not divide 5), the call does not fail: it returns
a result, so no ConfigurationError is raised for the non-divisible
unary table. -/
theorem nondivisible_unary_counterexample :
    ¬ ((inpNondiv.M * inpNondiv.N) ∣ (inpNondiv.UC : ℤ)) ∧
    exceptIsOk (mexFunction mfTriv trwsTriv 0 inpNondiv) = true := by
  constructor
  · show ¬ ((2 * 1 : ℤ) ∣ (5 : ℤ))
    decide
  · rfl

/-- C5 (amended): the wrapper performs no divisibility check on the
unary element count: whenever the argument-count, grid and solver checks
pass, the solve proceeds even when `M*N` does not divide `UC`, using the
truncated label count `UC / (M*N)`. -/
theorem nondivisible_unary_accepted (mfB : MFBackend) (trwsB : TRWSBackend)
    (nlhs : ℕ) (inp : MexInputs)
    (hnr : inp.nrhs = 4) (hM : 0 < inp.M) (hN : 0 < inp.N)
    (hs : inp.solver = some "MF" ∨ inp.solver = some "TRWS")
    (hdvd : ¬ ((inp.M * inp.N) ∣ (inp.UC : ℤ))) :
    exceptIsOk (mexFunction mfB trwsB nlhs inp) = true := by
  rcases hs with hs | hs
  · rw [mexFunction_mf_eq mfB trwsB nlhs inp hnr hM hN hs]; rfl
  · rw [mexFunction_trws_eq mfB trwsB nlhs inp hnr hM hN hs]; rfl

/-- Witness for C5 (amended): the concrete non-divisible input solves
successfully. -/
theorem nondivisible_unary_accepted_witness :
    exceptIsOk (mexFunction mfTriv trwsTriv 1 inpNondiv) = true :=
  nondivisible_unary_accepted mfTriv trwsTriv 1 inpNondiv rfl
    (by norm_num [inpNondiv]) (by norm_num [inpNondiv]) (Or.inl rfl)
    (by show ¬ ((2 * 1 : ℤ) ∣ (5 : ℤ)); decide)

/-- A concrete, otherwise valid input with a negative iteration
count. -/
def inpIterNeg : MexInputs :=
  { nrhs := 4, M := 2, N := 2, C := 3, UC := 8,
    unaryCost := fun _ _ => 1, pairwiseCost := fun _ _ => 1,
    solver := some "TRWS", iterations := -3, min_pairwise_cost := 0 }

/-- C6 counterexample: an otherwise valid call with iteration count -3
(≤ 0) does not abort: the wrapper never validates the iteration count,
so a labeling, energy and bound are produced. -/
theorem nonpositive_iterations_counterexample :
    inpIterNeg.iterations ≤ 0 ∧
    exceptIsOk (mexFunction mfTriv trwsTriv 0 inpIterNeg) = true := by
  constructor
  · show (-3 : ℤ) ≤ 0
    decide
  · rfl

/-- C6 (amended): the wrapper performs no validation of the iteration
count: whenever the argument-count, grid and solver checks pass, a
configured iteration count ≤ 0 is forwarded unchanged to the selected
backend and the solve completes (under the backends' §6 contract)
instead of failing. -/
theorem nonpositive_iterations_accepted (mfB : MFBackend) (trwsB : TRWSBackend)
    (nlhs : ℕ) (inp : MexInputs)
    (hnr : inp.nrhs = 4) (hM : 0 < inp.M) (hN : 0 < inp.N)
    (hs : inp.solver = some "MF" ∨ inp.solver = some "TRWS")
    (hit : inp.iterations ≤ 0) :
    exceptIsOk (mexFunction mfB trwsB nlhs inp) = true := by
  rcases hs with hs | hs
  · rw [mexFunction_mf_eq mfB trwsB nlhs inp hnr hM hN hs]; rfl
  · rw [mexFunction_trws_eq mfB trwsB nlhs inp hnr hM hN hs]; rfl

/-- Witness for C6 (amended): a zero iteration count on the MF solver
still yields a result. -/
theorem nonpositive_iterations_accepted_witness :
    exceptIsOk (mexFunction mfTriv trwsTriv 1 { inpMF with iterations := 0 }) = true :=
  nonpositive_iterations_accepted mfTriv trwsTriv 1 { inpMF with iterations := 0 } rfl
    (by norm_num [inpMF]) (by norm_num [inpMF]) (Or.inl rfl) (by norm_num)

/-- C7: when either grid dimension is non-positive the call aborts
fatally before any solve: no output is produced (the result is an
error), and the outcome does not depend on either backend or on the
requested output count, so no solver ever ran. -/
theorem nonpositive_grid_aborts (mfB mfB' : MFBackend) (trwsB trwsB' : TRWSBackend)
    (nlhs nlhs' : ℕ) (inp : MexInputs) (h : inp.M ≤ 0 ∨ inp.N ≤ 0) :
    exceptIsOk (mexFunction mfB trwsB nlhs inp) = false ∧
    mexFunction mfB trwsB nlhs inp = mexFunction mfB' trwsB' nlhs' inp := by
  by_cases h4 : inp.nrhs = 4
  · by_cases h0 : inp.M * inp.N = 0
    · constructor <;> simp [mexFunction, h4, h0, exceptIsOk]
    · by_cases hM : inp.M ≤ 0
      · constructor <;> simp [mexFunction, h4, h0, hM, exceptIsOk]
      · have hN : inp.N ≤ 0 := by tauto
        have hM' : ¬ (inp.M ≤ 0) := hM
        constructor <;> simp [mexFunction, h4, h0, hM', hN, exceptIsOk]
  · constructor <;> simp [mexFunction, h4, exceptIsOk]

/-- Witness for C7: a grid with `M = 0` aborts with no output,
independently of the backends and of the requested output count. -/
theorem nonpositive_grid_aborts_witness :
    exceptIsOk (mexFunction mfTriv trwsTriv 0 { inpMF with M := 0 }) = false ∧
    mexFunction mfTriv trwsTriv 0 { inpMF with M := 0 } =
      mexFunction mfTriv trwsTriv 3 { inpMF with M := 0 } :=
  nonpositive_grid_aborts mfTriv mfTriv trwsTriv trwsTriv 0 3
    { inpMF with M := 0 } (Or.inl (by norm_num))

/-- C8: on the valid range the two grid-index conversions are mutual
inverses: converting a linear index `i < M*N` to (row, col) and back
yields `i`, and converting in-range coordinates to a linear index and
back yields the same coordinates. -/
theorem gridIndex_roundtrip (M N i r c : ℕ) (hM : 0 < M) (hi : i < M * N)
    (hr : r < M) (hc : c < N) :
    toLinear M (toCoord M i) = i ∧ toCoord M (toLinear M (r, c)) = (r, c) := by
  constructor
  · show i % M + M * (i / M) = i
    rw [Nat.mod_add_div]
  · show ((r + M * c) % M, (r + M * c) / M) = (r, c)
    rw [Nat.add_mul_mod_self_left, Nat.mod_eq_of_lt hr,
      Nat.add_mul_div_left r c hM, Nat.div_eq_of_lt hr, Nat.zero_add]

/-- Witness for C8: round-trip on a 3×4 grid at linear index 7 and at
coordinate (2, 1). -/
theorem gridIndex_roundtrip_witness :
    toLinear 3 (toCoord 3 7) = 7 ∧ toCoord 3 (toLinear 3 (2, 1)) = (2, 1) :=
  gridIndex_roundtrip 3 4 7 2 1 (by norm_num) (by norm_num) (by norm_num) (by norm_num)

/-- C9: with solver "MF" the outputs are independent of
`min_pairwise_cost`: two calls identical in every input except that
option produce identical results (the threshold is read only inside the
TRWS edge loop). -/
theorem mf_independent_of_threshold (mfB : MFBackend) (trwsB : TRWSBackend)
    (nlhs : ℕ) (inp : MexInputs) (t₁ t₂ : ℚ) (hs : inp.solver = some "MF") :
    mexFunction mfB trwsB nlhs { inp with min_pairwise_cost := t₁ } =
      mexFunction mfB trwsB nlhs { inp with min_pairwise_cost := t₂ } := by
  by_cases h4 : inp.nrhs = 4
  · by_cases h0 : inp.M * inp.N = 0
    · simp [mexFunction, h4, h0]
    · by_cases hM : inp.M ≤ 0
      · simp [mexFunction, h4, h0, hM]
      · by_cases hN : inp.N ≤ 0
        · simp [mexFunction, h4, h0, hM, hN]
        · have hM' : 0 < inp.M := by omega
          have hN' : 0 < inp.N := by omega
          rw [mexFunction_mf_eq mfB trwsB nlhs { inp with min_pairwise_cost := t₁ }
              h4 hM' hN' hs,
            mexFunction_mf_eq mfB trwsB nlhs { inp with min_pairwise_cost := t₂ }
              h4 hM' hN' hs]
          rfl
  · simp [mexFunction, h4]

/-- Witness for C9: the concrete MF input run at thresholds 5 and 7
gives the same result. -/
theorem mf_independent_of_threshold_witness :
    mexFunction mfTriv trwsTriv 0 { inpMF with min_pairwise_cost := 5 } =
      mexFunction mfTriv trwsTriv 0 { inpMF with min_pairwise_cost := 7 } :=
  mf_independent_of_threshold mfTriv trwsTriv 0 inpMF 5 7 rfl

/-- C10: the wrapper never examines the requested output count: the
outcome is the same for any two values of `nlhs`; and on every
successful solve all three output slots are populated — in particular
the labeling has exactly `M*N` entries (an `M×N` matrix) alongside the
scalar energy and bound. -/
theorem outputs_unconditional (mfB : MFBackend) (trwsB : TRWSBackend)
    (nlhs₁ nlhs₂ : ℕ) (inp : MexInputs) :
    mexFunction mfB trwsB nlhs₁ inp = mexFunction mfB trwsB nlhs₂ inp ∧
    ∀ out, mexFunction mfB trwsB nlhs₁ inp = .ok out →
      out.result.length = (inp.M * inp.N).toNat := by
  refine ⟨rfl, fun out hout => ?_⟩
  unfold mexFunction at hout
  split_ifs at hout
  all_goals first
    | exact Except.noConfusion hout
    | (injection hout with h; subst h; simp [mfRun])
    | (injection hout with h; subst h; simp [trwsRun])

/-- Witness for C10: concretely, requesting 1 or 7 outputs gives the
same outcome, and the successful MF solve fills a 4-entry labeling. -/
theorem outputs_unconditional_witness :
    mexFunction mfTriv trwsTriv 1 inpMF = mexFunction mfTriv trwsTriv 7 inpMF ∧
    (mfRun mfTriv inpMF).result.length = 4 :=
  ⟨(outputs_unconditional mfTriv trwsTriv 1 7 inpMF).1,
   (outputs_unconditional mfTriv trwsTriv 1 7 inpMF).2 (mfRun mfTriv inpMF)
     (mexFunction_mf_eq mfTriv trwsTriv 1 inpMF rfl (by norm_num [inpMF])
       (by norm_num [inpMF]) rfl)⟩

end Meanfield
